import Mathlib

/-!
Verification of the mcp-bridge gateway runtime against its specification.

The TypeScript sources are shallowly embedded: JavaScript strings are modelled
as `String` / `List Char`, JavaScript objects as association lists, promises
and the event loop as explicit outcome sequences or step relations, and
`Date.now()` timestamps as natural-number parameters.  Each definition below
names the source function it embeds.
-/

/- ===================== JavaScript string primitives ===================== -/

/-- The pattern matches the haystack starting at its head
(the one-position core of JS String.prototype.includes). -/
def headMatches : List Char → List Char → Bool
  | [], _ => true
  | _ :: _, [] => false
  | p :: ps, h :: hs => p == h && headMatches ps hs

/-- JS String.prototype.includes: the pattern occurs contiguously somewhere
in the haystack. -/
def occursIn (pat : List Char) : List Char → Bool
  | [] => pat.isEmpty
  | h :: hs => headMatches pat (h :: hs) || occursIn pat hs

/-- JS String.prototype.toLowerCase (ASCII; all strings in play are ASCII). -/
def lowerChars (l : List Char) : List Char := l.map Char.toLower

/- ===================== ErrorHandler (src/execution/error-handler.ts) ===================== -/

/-- The non-retriable substrings of ErrorHandler.isRetriable. -/
def nonRetriablePatterns : List String :=
  ["invalid", "not found", "unauthorized", "forbidden", "bad request",
   "validation", "parse error"]

/-- The retriable substrings of ErrorHandler.isRetriable. -/
def retriablePatterns : List String :=
  ["timeout", "econnrefused", "econnreset", "etimedout", "network", "temporary"]

/-- ErrorHandler.isRetriable: lowercase the message, return false on the first
non-retriable pattern hit, true on the first retriable hit, and true as the
fall-through default. -/
def isRetriable (message : String) : Bool :=
  let m := lowerChars message.data
  if nonRetriablePatterns.any (fun p => occursIn p.data m) then false
  else if retriablePatterns.any (fun p => occursIn p.data m) then true
  else true

/-- Outcome of one invocation of the operation passed to executeWithRetry:
the promise either resolves with a value or rejects with an error message. -/
inductive AttemptOutcome (α : Type) where
  | ok (result : α)
  | err (message : String)

/-- The ExecutionResult record returned by ErrorHandler.executeWithRetry
(the wall-clock totalDurationMs field is outside the model). -/
structure ExecutionResult (α : Type) where
  success : Bool
  result : Option α
  error : Option String
  attempts : Nat

/-- The failure record built after the retry loop stops: the code always
reports attempts as the configured maxAttempts. -/
def retryFailure (α : Type) (maxAttempts : Nat) (lastError : Option String) :
    ExecutionResult α :=
  { success := false, result := none, error := lastError, attempts := maxAttempts }

/-- The retry loop of ErrorHandler.executeWithRetry.  `outcomes n` is the
outcome of the n-th invocation of the operation (1-indexed); `attempt` is the
loop counter and `fuel` maintains `attempt + fuel = maxAttempts`, standing in
for the loop bound `attempt <= maxAttempts`.  The second component of the
result counts how many times the operation was actually invoked. -/
def retryGo (outcomes : Nat → AttemptOutcome α) (maxAttempts : Nat) :
    Nat → Nat → ExecutionResult α × Nat
  | attempt, 0 =>
    match outcomes attempt with
    | .ok r =>
        ({ success := true, result := some r, error := none, attempts := attempt }, attempt)
    | .err m => (retryFailure α maxAttempts (some m), attempt)
  | attempt, fuel + 1 =>
    match outcomes attempt with
    | .ok r =>
        ({ success := true, result := some r, error := none, attempts := attempt }, attempt)
    | .err m =>
        if isRetriable m then retryGo outcomes maxAttempts (attempt + 1) fuel
        else (retryFailure α maxAttempts (some m), attempt)

/-- ErrorHandler.executeWithRetry, as a function of the per-attempt outcome
sequence.  Starts at attempt 1; `maxAttempts - 1` further attempts remain. -/
def executeWithRetry (outcomes : Nat → AttemptOutcome α) (maxAttempts : Nat) :
    ExecutionResult α × Nat :=
  retryGo outcomes maxAttempts 1 (maxAttempts - 1)

/- ===================== JSON values ===================== -/

/-- JSON values as passed in operation params and tool results.  Numbers are
modelled as integers (the arguments exercised by the claims are integral). -/
inductive Json where
  | null
  | bool (b : Bool)
  | num (n : Int)
  | str (s : String)
  | arr (items : List Json)
  | obj (fields : List (String × Json))

/- ===================== MCP result and bridge response types ===================== -/

/-- One item of a CallToolResult's content array (protocol/types.ts).  Items
carrying binary data instead of text are outside the model; the dispatcher
never inspects them. -/
structure ContentItem where
  type : String
  text : Option String
deriving DecidableEq

/-- CallToolResult (protocol/types.ts): `isError = none` models an absent
(undefined) field. -/
structure CallToolResult where
  content : List ContentItem
  isError : Option Bool
deriving DecidableEq

/-- BridgeOperation (protocol/types.ts). -/
structure BridgeOperation where
  category : String
  operation : String
  params : List (String × Json)

/-- The error object of a BridgeResponse; `details` holds the rejection
reason's message when one exists. -/
structure ErrorInfo where
  message : String
  code : String
  details : Option String
deriving DecidableEq

/-- The metadata block of a BridgeResponse.  `tokensEstimate = none` models
the field being absent (it is optional in protocol/types.ts). -/
structure BridgeMetadata where
  serverName : String
  operationName : String
  durationMs : Nat
  cached : Bool
  tokensEstimate : Option Nat
deriving DecidableEq

/-- BridgeResponse (protocol/types.ts): all of data, error and metadata are
optional. -/
structure BridgeResponse where
  success : Bool
  data : Option (List ContentItem)
  error : Option ErrorInfo
  metadata : Option BridgeMetadata
deriving DecidableEq

/-- The summary block of a BatchResponse. -/
structure BatchSummary where
  total : Nat
  succeeded : Nat
  failed : Nat
  durationMs : Nat
  tokensEstimate : Nat

/-- BatchResponse (protocol/types.ts). -/
structure BatchResponse where
  results : List BridgeResponse
  summary : BatchSummary

/- ===================== ParallelExecutor.executeBatch ===================== -/

/-- How the promise of one batch slot settles: Promise.allSettled hands back
either the fulfilled BridgeResponse or the rejection reason (modelled by its
optional message). -/
inductive Settled where
  | fulfilled (value : BridgeResponse)
  | rejected (message : Option String)

/-- The per-slot mapping inside ParallelExecutor.executeBatch: a fulfilled
promise passes its value through; a rejected one becomes a failure response
with code EXECUTION_ERROR built from the slot's input operation.  The `||`
fallback makes an empty message fall back to "Operation failed". -/
def settleToResponse (op : BridgeOperation) : Settled → BridgeResponse
  | .fulfilled v => v
  | .rejected msg =>
      { success := false
        data := none
        error := some
          { message := match msg with
              | some m => if m = "" then "Operation failed" else m
              | none => "Operation failed"
            code := "EXECUTION_ERROR"
            details := msg }
        metadata := some
          { serverName := op.category, operationName := op.operation,
            durationMs := 0, cached := false, tokensEstimate := none } }

/-- The tokensEstimate summation of executeBatch:
`sum + (r.metadata?.tokensEstimate || 0)`. -/
def sumTokens (results : List BridgeResponse) : Nat :=
  results.foldl
    (fun sum r =>
      sum + (match r.metadata with
             | some m => m.tokensEstimate.getD 0
             | none => 0))
    0

/-- ParallelExecutor.executeBatch: `settled` lists, in input order, how the
promise of each operation settled (Promise.allSettled preserves the index
correspondence); wall-clock duration is a parameter. -/
def executeBatch (ops : List BridgeOperation) (settled : List Settled)
    (totalDurationMs : Nat) : BatchResponse :=
  let bridgeResults := List.zipWith settleToResponse ops settled
  { results := bridgeResults
    summary :=
      { total := ops.length
        succeeded := bridgeResults.countP (fun r => r.success)
        failed := bridgeResults.countP (fun r => !r.success)
        durationMs := totalDurationMs
        tokensEstimate := sumTokens bridgeResults } }

/- ===================== ParallelExecutor concurrency control ===================== -/

/-- The executor's shared state: the activeOperations counter and the FIFO
wait queue (queued operations stand for their batch slot index). -/
structure ExecState where
  active : Nat
  queue : List Nat
deriving DecidableEq

/-- ParallelExecutor.processQueue: release queued operations from the front
while capacity remains; each release moves one operation into the in-flight
count. -/
def processQueue (k : Nat) : Nat → List Nat → Nat × List Nat
  | active, [] => (active, [])
  | active, op :: rest =>
      if active < k then processQueue k (active + 1) rest
      else (active, op :: rest)

/-- Atomic transitions of the executor under cap `k`, mirroring the
synchronous critical sections of the single-threaded event loop:
an operation presented below the cap starts at once
(executeWithConcurrencyControl's run path, which increments the counter
before any suspension point); one presented at the cap is appended to the
wait queue; a completing operation decrements the counter and drains the
queue (the finally block followed by processQueue). -/
inductive ExecStep (k : Nat) : ExecState → ExecState → Prop where
  | submitRun (op : Nat) (s : ExecState) (h : s.active < k) :
      ExecStep k s ⟨s.active + 1, s.queue⟩
  | submitQueue (op : Nat) (s : ExecState) (h : k ≤ s.active) :
      ExecStep k s ⟨s.active, s.queue ++ [op]⟩
  | complete (s : ExecState) (h : 0 < s.active) :
      ExecStep k s ⟨(processQueue k (s.active - 1) s.queue).1,
                    (processQueue k (s.active - 1) s.queue).2⟩

/-- States reachable from the idle executor (counter 0, empty queue). -/
inductive ExecReachable (k : Nat) : ExecState → Prop where
  | init : ExecReachable k ⟨0, []⟩
  | step {s s' : ExecState} : ExecReachable k s → ExecStep k s s' → ExecReachable k s'

/- ===================== MCPClient (clients/mcp-client.ts) ===================== -/

/-- The closed set of upstream identifiers (ServerName in protocol/types.ts). -/
def serverNames : List String :=
  ["serena", "context7", "playwright", "tavily", "shadcn"]

/-- The template interpolation of an exit code (`code: number | null`). -/
def codeText : Option Int → String
  | none => "null"
  | some n => toString n

/-- The error message built by MCPClient.handleProcessExit. -/
def processExitMessage (name : String) (code : Option Int) : String :=
  name ++ " process exited with code " ++ codeText code

/-- The client state touched by handleProcessExit: the pending-request table
(keyed by request id) and the initialized flag. -/
structure ClientState where
  pendingRequests : List Nat
  initialized : Bool

/-- MCPClient.handleProcessExit: reject every pending request with the
process-exited error, delete each from the table, and clear `initialized`.
The first component lists the rejections performed (id, error message). -/
def handleProcessExit (name : String) (code : Option Int) (st : ClientState) :
    List (Nat × String) × ClientState :=
  (st.pendingRequests.map (fun id => (id, processExitMessage name code)),
   { pendingRequests := [], initialized := false })

/-- The characters an integer exit code can print to. -/
def digitDashChars : List Char :=
  ['-', '0', '1', '2', '3', '4', '5', '6', '7', '8', '9']

/- ===================== JSON.stringify ===================== -/

/-- JSON string escaping of one character (ECMA QuoteJSONString). -/
def quoteChar (c : Char) : List Char :=
  if c = '"' then ['\\', '"']
  else if c = '\\' then ['\\', '\\']
  else if c = '\x08' then ['\\', 'b']
  else if c = '\x0c' then ['\\', 'f']
  else if c = '\n' then ['\\', 'n']
  else if c = '\r' then ['\\', 'r']
  else if c = '\t' then ['\\', 't']
  else if c.toNat < 32 then
    ['\\', 'u', '0', '0', Nat.digitChar (c.toNat / 16), Nat.digitChar (c.toNat % 16)]
  else [c]

/-- JSON string quoting. -/
def quoteString (s : String) : String :=
  ⟨'"' :: (s.data.map quoteChar).flatten ++ ['"']⟩

/-- Comma-join of serialized parts. -/
def joinComma : List String → String
  | [] => ""
  | [s] => s
  | s :: rest => s ++ "," ++ joinComma rest

/-- JS property lookup on an object modelled as an association list (objects
have unique keys, so the first match is the property). -/
def lookupField : List (String × Json) → String → Option Json
  | [], _ => none
  | (k, v) :: rest, key => if k = key then some v else lookupField rest key

/-- Lookup in a table of already-serialized properties. -/
def lookupStr : List (String × String) → String → Option String
  | [], _ => none
  | (k, v) :: rest, key => if k = key then some v else lookupStr rest key

/-- Emit the members of an object in PropertyList order: for each name in the
replacer array that the object has, output `"name":<serialized value>`
(names the object lacks are skipped). -/
def emitProps (table : List (String × String)) : List String → List String
  | [] => []
  | p :: ps =>
      match lookupStr table p with
      | none => emitProps table ps
      | some sv => (quoteString p ++ ":" ++ sv) :: emitProps table ps

mutual
/-- `JSON.stringify(v, props)` with a replacer array `props` (a PropertyList):
at every object, only the properties named in `props` are emitted, in `props`
order; array elements are all serialized.  This is the serialization
ResponseCache.generateKey performs via
`JSON.stringify(args, Object.keys(args).sort())`. -/
def stringifyFiltered (props : List String) : Json → String
  | .null => "null"
  | .bool b => if b then "true" else "false"
  | .num n => toString n
  | .str s => quoteString s
  | .arr items => "[" ++ joinComma (stringifyItems props items) ++ "]"
  | .obj fields =>
      "\x7b" ++ joinComma (emitProps (serializeFields props fields) props) ++ "\x7d"

/-- Serialization of every array element. -/
def stringifyItems (props : List String) : List Json → List String
  | [] => []
  | v :: rest => stringifyFiltered props v :: stringifyItems props rest

/-- Per-property serialization table of an object's fields (in field order;
`emitProps` then reorders and filters by the PropertyList). -/
def serializeFields (props : List String) : List (String × Json) → List (String × String)
  | [] => []
  | (k, v) :: rest => (k, stringifyFiltered props v) :: serializeFields props rest
end

/-- JS `Object.keys`: own property names in insertion order. -/
def objectKeys (fields : List (String × Json)) : List String :=
  fields.map Prod.fst

/-- JS `Array.prototype.sort()` on strings: lexicographic sort. -/
def sortedKeys (ks : List String) : List String :=
  List.insertionSort (fun a b => a ≤ b) ks

/-- ResponseCache.generateKey:
`server + ":" + tool + ":" + JSON.stringify(args, Object.keys(args).sort())`. -/
def generateKey (server tool : String) (args : List (String × Json)) : String :=
  server ++ ":" ++ tool ++ ":" ++
    stringifyFiltered (sortedKeys (objectKeys args)) (Json.obj args)

/-- Sort an object's serialized members by property name. -/
def sortPairs (l : List (String × String)) : List (String × String) :=
  List.insertionSort (fun a b => a.1 ≤ b.1) l

mutual
/-- Modelled from the spec: the canonical JSON the spec describes for cache
keys, with object keys sorted lexicographically at every depth and every
property kept.  (The source has no such function; generateKey uses a replacer
array instead.)  Used only for comparison with `stringifyFiltered`. -/
def canonicalJson : Json → String
  | .null => "null"
  | .bool b => if b then "true" else "false"
  | .num n => toString n
  | .str s => quoteString s
  | .arr items => "[" ++ joinComma (canonicalItems items) ++ "]"
  | .obj fields =>
      "\x7b" ++
        joinComma ((sortPairs (canonicalFields fields)).map
          (fun kv => quoteString kv.1 ++ ":" ++ kv.2)) ++ "\x7d"

/-- Canonical serialization of array elements. -/
def canonicalItems : List Json → List String
  | [] => []
  | v :: rest => canonicalJson v :: canonicalItems rest

/-- Canonical serialization of each field's value (in field order; the object
case then sorts the members by key). -/
def canonicalFields : List (String × Json) → List (String × String)
  | [] => []
  | (k, v) :: rest => (k, canonicalJson v) :: canonicalFields rest
end

/- ===================== Equality of JSON values up to key order ===================== -/

mutual
/-- Two JSON values are semantically equal up to object key order: atoms must
be identical, arrays pointwise related, and an object's field list must be a
permutation of a field list that matches the other object's keys in order
with recursively related values. -/
inductive Jeq : Json → Json → Prop where
  | null : Jeq .null .null
  | bool (b : Bool) : Jeq (.bool b) (.bool b)
  | num (n : Int) : Jeq (.num n) (.num n)
  | str (s : String) : Jeq (.str s) (.str s)
  | arr {l₁ l₂ : List Json} : JeqList l₁ l₂ → Jeq (.arr l₁) (.arr l₂)
  | obj {f₁ f₂ f₂' : List (String × Json)} :
      JeqFields f₁ f₂' → f₂'.Perm f₂ → Jeq (.obj f₁) (.obj f₂)

/-- Pointwise `Jeq` on array elements. -/
inductive JeqList : List Json → List Json → Prop where
  | nil : JeqList [] []
  | cons {v w : Json} {l₁ l₂ : List Json} :
      Jeq v w → JeqList l₁ l₂ → JeqList (v :: l₁) (w :: l₂)

/-- Pointwise `Jeq` on field lists with identical keys in identical order. -/
inductive JeqFields : List (String × Json) → List (String × Json) → Prop where
  | nil : JeqFields [] []
  | cons (k : String) {v w : Json} {r₁ r₂ : List (String × Json)} :
      Jeq v w → JeqFields r₁ r₂ → JeqFields ((k, v) :: r₁) ((k, w) :: r₂)
end

/-- Well-formedness of a JSON value as a JS value: every object has distinct
property keys (JS objects cannot carry duplicate keys). -/
inductive JsonWf : Json → Prop where
  | null : JsonWf .null
  | bool (b : Bool) : JsonWf (.bool b)
  | num (n : Int) : JsonWf (.num n)
  | str (s : String) : JsonWf (.str s)
  | arr {items : List Json} : (∀ v ∈ items, JsonWf v) → JsonWf (.arr items)
  | obj {fields : List (String × Json)} : (objectKeys fields).Nodup →
      (∀ kv ∈ fields, JsonWf kv.2) → JsonWf (.obj fields)

/- ===================== ResponseFormatter (utils/response-formatter.ts) ===================== -/

/-- The JS regex class `\s` (whitespace), as used by compressText and trim. -/
def isJsWhitespace (c : Char) : Bool :=
  c = ' ' || c = '\t' || c = '\n' || c = '\r' || c = '\x0b' || c = '\x0c' ||
  c = '\u00A0' || c = '\u1680' || ('\u2000' ≤ c && c ≤ '\u200A') ||
  c = '\u2028' || c = '\u2029' || c = '\u202F' || c = '\u205F' ||
  c = '\u3000' || c = '\uFEFF'

/-- A maximal run of matched characters: replaced when it reaches the
quantifier's lower bound, kept verbatim otherwise. -/
def emitRun (thr : Nat) (repl run : List Char) : List Char :=
  if thr ≤ run.length then repl else run

/-- `text.replace(/<pred>{thr,}/g, repl)`: scan the text, collecting maximal
runs of characters matched by `pred` in `run`, and replace each run of
length at least `thr` by `repl`. -/
def collapseAux (pred : Char → Bool) (thr : Nat) (repl : List Char) :
    List Char → List Char → List Char
  | run, [] => emitRun thr repl run
  | run, c :: cs =>
      if pred c then collapseAux pred thr repl (run ++ [c]) cs
      else emitRun thr repl run ++ c :: collapseAux pred thr repl [] cs

/-- JS `String.prototype.trim`. -/
def trimChars (l : List Char) : List Char :=
  ((l.dropWhile isJsWhitespace).reverse.dropWhile isJsWhitespace).reverse

/-- ResponseFormatter.compressText:
`.replace(/\n{3,}/g, "\n\n").replace(/\s{2,}/g, " ").trim()`. -/
def compressText (t : String) : String :=
  ⟨trimChars (collapseAux isJsWhitespace 2 [' '] []
      (collapseAux (fun c => c = '\n') 3 ['\n', '\n'] [] t.data))⟩

/-- ResponseFormatter.compressResponse: compress every text content item
(the `item.text` truthiness check makes an absent or empty text leave the
item untouched); isError is passed through. -/
def compressResponse (r : CallToolResult) : CallToolResult :=
  { content := r.content.map (fun item =>
      match item.text with
      | some t =>
          if item.type = "text" ∧ t ≠ "" then
            { type := "text", text := some (compressText t) }
          else item
      | none => item)
    isError := r.isError }

/-- `JSON.stringify` of one content item (field order type, text; an absent
text is omitted). -/
def serializeItem (it : ContentItem) : String :=
  "\x7b" ++ quoteString "type" ++ ":" ++ quoteString it.type ++
    (match it.text with
     | none => ""
     | some t => "," ++ quoteString "text" ++ ":" ++ quoteString t) ++ "\x7d"

/-- `JSON.stringify` of a CallToolResult (field order content, isError; an
absent isError is omitted). -/
def serializeCallToolResult (r : CallToolResult) : String :=
  "\x7b" ++ quoteString "content" ++ ":[" ++
    joinComma (r.content.map serializeItem) ++ "]" ++
    (match r.isError with
     | none => ""
     | some b => "," ++ quoteString "isError" ++ ":" ++ (if b then "true" else "false")) ++
    "\x7d"

/-- ResponseFormatter.estimateTokens: `ceil(JSON.stringify(result).length / 4)`. -/
def estimateTokens (r : CallToolResult) : Nat :=
  ((serializeCallToolResult r).length + 3) / 4

/-- ResponseFormatter.truncateIfNeeded: if the serialized response exceeds
maxSize bytes, replace the content with a single text item carrying the
original size, the first maxSize - 100 serialized bytes and a truncation
marker. -/
def truncateIfNeeded (response : CallToolResult) (maxSize : Nat) : CallToolResult :=
  let size := (serializeCallToolResult response).length
  if size ≤ maxSize then response
  else
    { content := [⟨"text",
        some ("[Response truncated - original size: " ++ toString size ++
          " bytes]\n\n" ++ ⟨(serializeCallToolResult response).data.take (maxSize - 100)⟩ ++
          "\n\n[... truncated]")⟩]
      isError := response.isError }

/-- ResponseFormatter.formatBridgeResponse: success mirrors `!result.isError`,
data always carries the content, and the metadata block gains the token
estimate. -/
def formatBridgeResponse (result : CallToolResult)
    (serverName operationName : String) (durationMs : Nat) (cached : Bool) :
    BridgeResponse :=
  { success := !(result.isError.getD false)
    data := some result.content
    error := none
    metadata := some
      { serverName, operationName, durationMs, cached,
        tokensEstimate := some (estimateTokens result) } }

/- ===================== BridgeServer.executeOperation ===================== -/

/-- An operation-registry entry (registry/operation-registry.ts). -/
structure OperationMapping where
  server : String
  tool : String
  cacheable : Bool

/-- One record appended to the metrics log by recordOperation. -/
structure MetricRecord where
  server : String
  operation : String
  durationMs : Nat
  tokensEstimate : Nat
  cached : Bool
  success : Bool
  timestamp : Nat
deriving DecidableEq

/-- The environment one dispatch runs in: what the registry, the client map,
the cache and the retry wrapper answer for this call. -/
structure DispatchEnv where
  validOp : Bool
  mapping : Option OperationMapping
  clientAvailable : Bool
  cached : Option CallToolResult
  execSuccess : Bool
  execResult : Option CallToolResult
  execError : Option String
  execStack : Option String
  durationMs : Nat
  now : Nat

/-- BridgeServer.executeOperation: validate the operation, resolve the
mapping and the client, consult the cache for cacheable mappings, otherwise
take the retry wrapper's outcome; returns the BridgeResponse together with
the metric records appended during the call. -/
def executeOperation (category operation : String) (env : DispatchEnv) :
    BridgeResponse × List MetricRecord :=
  if !env.validOp then
    ({ success := false, data := none,
       error := some
         { message := "Invalid operation: " ++ operation ++ " in category " ++ category,
           code := "INVALID_OPERATION", details := none },
       metadata := none }, [])
  else
    match env.mapping with
    | none =>
        ({ success := false, data := none,
           error := some
             { message := "Operation mapping not found: " ++ operation,
               code := "MAPPING_ERROR", details := none },
           metadata := none }, [])
    | some mapping =>
        if !env.clientAvailable then
          ({ success := false, data := none,
             error := some
               { message := "Server not available: " ++ mapping.server,
                 code := "SERVER_UNAVAILABLE", details := none },
             metadata := none }, [])
        else
          match (if mapping.cacheable then env.cached else none) with
          | some cachedResult =>
              (formatBridgeResponse cachedResult mapping.server operation 0 true,
               [{ server := mapping.server, operation,
                  durationMs := 0, tokensEstimate := estimateTokens cachedResult,
                  cached := true, success := true, timestamp := env.now }])
          | none =>
              match env.execSuccess, env.execResult with
              | true, some result =>
                  let compressed := compressResponse result
                  (formatBridgeResponse compressed mapping.server operation
                     env.durationMs false,
                   [{ server := mapping.server, operation,
                      durationMs := env.durationMs,
                      tokensEstimate := estimateTokens compressed,
                      cached := false, success := true, timestamp := env.now }])
              | _, _ =>
                  ({ success := false, data := none,
                     error := some
                       { message := (env.execError).getD "Unknown error",
                         code := "EXECUTION_ERROR", details := env.execStack },
                     metadata := some
                       { serverName := mapping.server, operationName := operation,
                         durationMs := env.durationMs, cached := false,
                         tokensEstimate := none } },
                   [{ server := mapping.server, operation,
                      durationMs := env.durationMs, tokensEstimate := 0,
                      cached := false, success := false, timestamp := env.now }])

/- ===================== ResponseCache (cache/response-cache.ts) ===================== -/

/-- A cache entry: the stored result, its insertion timestamp, and its hit
count. -/
structure CacheEntry where
  value : CallToolResult
  timestamp : Nat
  hits : Nat
deriving DecidableEq

/-- The cache configuration. -/
structure CacheConfig where
  enabled : Bool
  ttlSeconds : Nat
  maxSize : Nat

/-- The backing JS Map, modelled as an insertion-ordered association list
with unique keys. -/
abbrev CacheMap := List (String × CacheEntry)

/-- JS `Map.prototype.get`. -/
def cacheLookup : CacheMap → String → Option CacheEntry
  | [], _ => none
  | (k, e) :: rest, key => if k = key then some e else cacheLookup rest key

/-- JS `Map.prototype.set`: overwrite in place, else append. -/
def cacheInsert : CacheMap → String → CacheEntry → CacheMap
  | [], key, e => [(key, e)]
  | (k, e') :: rest, key, e =>
      if k = key then (key, e) :: rest else (k, e') :: cacheInsert rest key e

/-- JS `Map.prototype.delete`. -/
def cacheDelete : CacheMap → String → CacheMap
  | [], _ => []
  | (k, e) :: rest, key => if k = key then rest else (k, e) :: cacheDelete rest key

/-- ResponseCache.get: disabled or missing is a miss; an entry older than the
TTL is deleted and is a miss; otherwise the hit count is bumped and the
stored value returned.  Returns the result together with the updated map. -/
def cacheGet (cfg : CacheConfig) (m : CacheMap) (server tool : String)
    (args : List (String × Json)) (now : Nat) : Option CallToolResult × CacheMap :=
  if !cfg.enabled then (none, m)
  else
    let key := generateKey server tool args
    match cacheLookup m key with
    | none => (none, m)
    | some entry =>
        if cfg.ttlSeconds * 1000 < now - entry.timestamp then
          (none, cacheDelete m key)
        else
          (some entry.value, cacheInsert m key { entry with hits := entry.hits + 1 })

/-- The score `entry.timestamp / (entry.hits + 1)` of ResponseCache.evictOldest
is a real-valued ratio; comparison is by cross-multiplication. -/
def scoreLt (t₁ h₁ t₂ h₂ : Nat) : Bool :=
  t₁ * (h₂ + 1) < t₂ * (h₁ + 1)

/-- The scan of ResponseCache.evictOldest: keep the first entry whose score
is strictly below the best so far (the initial best is Infinity, so the
first entry always becomes the candidate). -/
def evictFold (m : CacheMap) : Option (String × Nat × Nat) :=
  m.foldl
    (fun best kv =>
      match best with
      | none => some (kv.1, kv.2.timestamp, kv.2.hits)
      | some (bk, bt, bh) =>
          if scoreLt kv.2.timestamp kv.2.hits bt bh then
            some (kv.1, kv.2.timestamp, kv.2.hits)
          else some (bk, bt, bh))
    none

/-- ResponseCache.evictOldest: delete the scanned key, if any. -/
def evictOldest (m : CacheMap) : CacheMap :=
  match evictFold m with
  | none => m
  | some (k, _, _) => cacheDelete m k

/-- ResponseCache.set: no-op when disabled; evict one entry when the size
has reached maxSize; insert with the current timestamp and zero hits. -/
def cacheSet (cfg : CacheConfig) (m : CacheMap) (server tool : String)
    (args : List (String × Json)) (value : CallToolResult) (now : Nat) : CacheMap :=
  if !cfg.enabled then m
  else
    let m' := if cfg.maxSize ≤ m.length then evictOldest m else m
    cacheInsert m' (generateKey server tool args)
      { value, timestamp := now, hits := 0 }

/-- `key.split(":")` on the character list. -/
def splitColon : List Char → List (List Char)
  | [] => [[]]
  | c :: cs =>
      match splitColon cs with
      | [] => [[c]]
      | seg :: rest => if c = ':' then [] :: seg :: rest else (c :: seg) :: rest

/-- The destructuring `const [keyServer, keyTool] = key.split(":")`. -/
def keyServerTool (key : String) : Option String × Option String :=
  match (splitColon key.data).map (fun l => String.mk l) with
  | [] => (none, none)
  | [a] => (some a, none)
  | a :: b :: _ => (some a, some b)

/-- One pattern component of ResponseCache.invalidate: `!pattern.server`
is true for an absent or empty string (JS falsiness), and otherwise the
key segment must equal it (`undefined === s` is false). -/
def segmentMatches (patternPart : Option String) (segment : Option String) : Bool :=
  match patternPart with
  | none => true
  | some s => if s = "" then true else segment == some s

/-- ResponseCache.invalidate: with no pattern, clear everything; otherwise
delete every entry whose key's first two segments match the pattern.
Returns the removed count and the remaining map. -/
def cacheInvalidate (m : CacheMap) (pattern : Option (Option String × Option String)) :
    Nat × CacheMap :=
  match pattern with
  | none => (m.length, [])
  | some (ps, pt) =>
      let keyMatches := fun (k : String) =>
        segmentMatches ps (keyServerTool k).1 && segmentMatches pt (keyServerTool k).2
      let keep := m.filter (fun kv => !keyMatches kv.1)
      (m.length - keep.length, keep)

/-- The periodic cleanup of startCleanupInterval: drop every entry whose age
exceeds the TTL. -/
def cacheSweep (cfg : CacheConfig) (m : CacheMap) (now : Nat) : CacheMap :=
  m.filter (fun kv => !(cfg.ttlSeconds * 1000 < now - kv.2.timestamp))

/-- One cache operation of the claim's alphabet. -/
inductive CacheOp where
  | get (server tool : String) (args : List (String × Json)) (now : Nat)
  | set (server tool : String) (args : List (String × Json))
      (value : CallToolResult) (now : Nat)
  | invalidate (pattern : Option (Option String × Option String))
  | sweep (now : Nat)

/-- Apply one cache operation to the map. -/
def applyCacheOp (cfg : CacheConfig) (m : CacheMap) : CacheOp → CacheMap
  | .get s t a now => (cacheGet cfg m s t a now).2
  | .set s t a v now => cacheSet cfg m s t a v now
  | .invalidate p => (cacheInvalidate m p).2
  | .sweep now => cacheSweep cfg m now

/-- Run a sequence of cache operations from the empty cache. -/
def runCacheOps (cfg : CacheConfig) (ops : List CacheOp) : CacheMap :=
  ops.foldl (applyCacheOp cfg) []

/-- A dispatch environment whose operation is unknown to the registry. -/
def envInvalid : DispatchEnv :=
  { validOp := false, mapping := none, clientAvailable := false, cached := none,
    execSuccess := false, execResult := none, execError := none, execStack := none,
    durationMs := 0, now := 0 }

/-- A dispatch environment whose upstream call succeeds but returns a result
with isError set. -/
def envIsError : DispatchEnv :=
  { validOp := true, mapping := some ⟨"serena", "find_symbol", false⟩,
    clientAvailable := true, cached := none, execSuccess := true,
    execResult := some ⟨[⟨"text", some "boom"⟩], some true⟩,
    execError := none, execStack := none, durationMs := 7, now := 3 }

/-- A dispatch environment for a plain successful uncached call. -/
def envW : DispatchEnv :=
  { validOp := true, mapping := some ⟨"serena", "find_symbol", true⟩,
    clientAvailable := true, cached := none, execSuccess := true,
    execResult := some ⟨[⟨"text", some "ok"⟩], none⟩,
    execError := none, execStack := none, durationMs := 12, now := 3 }

/-- A 50,001-character upstream text payload. -/
def bigText : String := ⟨List.replicate 50001 'a'⟩

/-- A successful upstream response whose serialization exceeds 50,000 bytes. -/
def bigResult : CallToolResult := ⟨[⟨"text", some bigText⟩], none⟩

/-- A dispatch environment whose upstream call succeeds with the oversized
response. -/
def envBig : DispatchEnv :=
  { validOp := true, mapping := some ⟨"serena", "find_symbol", false⟩,
    clientAvailable := true, cached := none, execSuccess := true,
    execResult := some bigResult, execError := none, execStack := none,
    durationMs := 5, now := 9 }

/-- Nested args whose inner value 1 is outside the top-level key set. -/
def ex1 : List (String × Json) := [("a", Json.obj [("x", Json.num 1)])]

/-- Nested args identical to `ex1` except for the inner value. -/
def ex2 : List (String × Json) := [("a", Json.obj [("x", Json.num 2)])]

/-- Flat args with keys in order b, a. -/
def argsBA : List (String × Json) := [("b", Json.num 2), ("a", Json.num 1)]

/-- The same args with keys in order a, b. -/
def argsAB : List (String × Json) := [("a", Json.num 1), ("b", Json.num 2)]

/-- Four set operations with pairwise distinct keys. -/
def fourSets : List CacheOp :=
  [.set "serena" "tool1" [] ⟨[], none⟩ 0,
   .set "serena" "tool2" [] ⟨[], none⟩ 1,
   .set "serena" "tool3" [] ⟨[], none⟩ 2,
   .set "serena" "tool4" [] ⟨[], none⟩ 3]

/- ===================== Theorems ===================== -/

theorem retryGo_exhaust {α : Type} (outcomes : Nat → AttemptOutcome α)
    (maxAttempts : Nat) (msg : Nat → String)
    (hall : ∀ n, outcomes n = .err (msg n))
    (hret : ∀ n, isRetriable (msg n) = true) :
    ∀ fuel attempt, attempt + fuel = maxAttempts →
      retryGo outcomes maxAttempts attempt fuel =
        (retryFailure α maxAttempts (some (msg maxAttempts)), maxAttempts) := by
  intro fuel
  induction fuel with
  | zero =>
      intro attempt h
      simp only [Nat.add_zero] at h
      subst h
      simp [retryGo, hall attempt]
  | succ fuel' ih =>
      intro attempt h
      have h' : attempt + 1 + fuel' = maxAttempts := by omega
      simp [retryGo, hall attempt, hret attempt, ih (attempt + 1) h']

/-- C3: for an operation that always rejects with a retriable error, the
retry wrapper invokes the operation exactly maxAttempts times and returns
success = false carrying the error of the last attempt. -/
theorem retry_always_retriable_exhausts {α : Type}
    (outcomes : Nat → AttemptOutcome α) (maxAttempts : Nat) (msg : Nat → String)
    (hmax : 1 ≤ maxAttempts)
    (hall : ∀ n, outcomes n = .err (msg n))
    (hret : ∀ n, isRetriable (msg n) = true) :
    executeWithRetry outcomes maxAttempts =
      ({ success := false, result := none, error := some (msg maxAttempts),
         attempts := maxAttempts }, maxAttempts) := by
  have h := retryGo_exhaust outcomes maxAttempts msg hall hret (maxAttempts - 1) 1 (by omega)
  simpa [executeWithRetry, retryFailure] using h

theorem retry_always_retriable_exhausts_witness :
    1 ≤ 3 ∧
    executeWithRetry (α := Unit) (fun _ => .err "timeout") 3 =
      ({ success := false, result := none, error := some "timeout",
         attempts := 3 }, 3) :=
  ⟨by decide,
   retry_always_retriable_exhausts (fun _ => .err "timeout") 3 (fun _ => "timeout")
     (by decide) (fun _ => rfl) (fun _ => rfl)⟩

theorem retryGo_failure_attempts {α : Type} (outcomes : Nat → AttemptOutcome α)
    (maxAttempts : Nat) :
    ∀ fuel attempt, ((retryGo outcomes maxAttempts attempt fuel).1.success = false) →
      (retryGo outcomes maxAttempts attempt fuel).1.attempts = maxAttempts := by
  intro fuel
  induction fuel with
  | zero =>
      intro attempt h
      cases hout : outcomes attempt with
      | ok r => simp [retryGo, hout] at h
      | err m => simp [retryGo, hout, retryFailure]
  | succ fuel' ih =>
      intro attempt h
      cases hout : outcomes attempt with
      | ok r => simp [retryGo, hout] at h
      | err m =>
          by_cases hr : isRetriable m = true
          · have := ih (attempt + 1)
            simp only [retryGo, hout, hr, if_true] at h ⊢
            exact this h
          · simp only [Bool.not_eq_true] at hr
            simp [retryGo, hout, hr, retryFailure]

/-- C10: whenever executeWithRetry returns success = false, the reported
attempts field equals the configured maxAttempts, even when a non-retriable
error stopped the loop after fewer invocations of the operation. -/
theorem retry_failure_reports_maxAttempts {α : Type}
    (outcomes : Nat → AttemptOutcome α) (maxAttempts : Nat)
    (h : (executeWithRetry outcomes maxAttempts).1.success = false) :
    (executeWithRetry outcomes maxAttempts).1.attempts = maxAttempts :=
  retryGo_failure_attempts outcomes maxAttempts (maxAttempts - 1) 1 h

theorem retry_failure_reports_maxAttempts_witness :
    (executeWithRetry (α := Unit) (fun _ => .err "invalid request") 3).1.success = false ∧
    (executeWithRetry (α := Unit) (fun _ => .err "invalid request") 3).1.attempts = 3 ∧
    (executeWithRetry (α := Unit) (fun _ => .err "invalid request") 3).2 = 1 :=
  ⟨by decide, retry_failure_reports_maxAttempts (fun _ => .err "invalid request") 3 (by decide),
   by decide⟩

theorem countP_bool_partition {α : Type} (l : List α) (p : α → Bool) :
    l.countP p + l.countP (fun a => !p a) = l.length := by
  induction l with
  | nil => simp
  | cons a t ih =>
      cases h : p a <;> simp [List.countP_cons, h] <;> omega

/-- C1: for a batch of n operations, the results array has length exactly n,
the i-th result is derived from the i-th input operation and its own
settlement (irrespective of completion order, which the model abstracts away
by indexing settlements by input position), and succeeded + failed = n. -/
theorem executeBatch_ordered_complete (ops : List BridgeOperation)
    (settled : List Settled) (d : Nat) (h : settled.length = ops.length) :
    (executeBatch ops settled d).results.length = ops.length ∧
    (∀ i (h1 : i < ops.length) (h2 : i < settled.length)
        (h3 : i < (executeBatch ops settled d).results.length),
      (executeBatch ops settled d).results[i] =
        settleToResponse ops[i] settled[i]) ∧
    (executeBatch ops settled d).summary.succeeded +
      (executeBatch ops settled d).summary.failed = ops.length := by
  refine ⟨?_, ?_, ?_⟩
  · simp [executeBatch, List.length_zipWith, h]
  · intro i h1 h2 h3
    simp [executeBatch, List.getElem_zipWith]
  · have hpart := countP_bool_partition (List.zipWith settleToResponse ops settled)
      (fun r => r.success)
    have hlen : (List.zipWith settleToResponse ops settled).length = ops.length := by
      simp [List.length_zipWith, h]
    simpa [executeBatch, hlen] using hpart

theorem executeBatch_ordered_complete_witness :
    ([Settled.rejected none].length = [BridgeOperation.mk "code_operations" "findSymbol" []].length) ∧
    (executeBatch [BridgeOperation.mk "code_operations" "findSymbol" []]
        [Settled.rejected none] 5).results.length = 1 ∧
    (executeBatch [BridgeOperation.mk "code_operations" "findSymbol" []]
        [Settled.rejected none] 5).summary.succeeded +
      (executeBatch [BridgeOperation.mk "code_operations" "findSymbol" []]
        [Settled.rejected none] 5).summary.failed = 1 :=
  ⟨rfl,
   (executeBatch_ordered_complete [BridgeOperation.mk "code_operations" "findSymbol" []]
      [Settled.rejected none] 5 rfl).1,
   (executeBatch_ordered_complete [BridgeOperation.mk "code_operations" "findSymbol" []]
      [Settled.rejected none] 5 rfl).2.2⟩

theorem processQueue_bound (k : Nat) :
    ∀ (q : List Nat) (active : Nat), active ≤ k →
      (processQueue k active q).1 ≤ k ∧
      ((processQueue k active q).2 ≠ [] → (processQueue k active q).1 = k) := by
  intro q
  induction q with
  | nil =>
      intro active h
      simp [processQueue, h]
  | cons op rest ih =>
      intro active h
      by_cases hlt : active < k
      · simpa [processQueue, hlt] using ih (active + 1) (by omega)
      · have heq : active = k := by omega
        simp [processQueue, hlt, heq]

/-- C2: in every state of the batch executor reachable under concurrency cap
k, the number of in-flight operation invocations never exceeds k; moreover
the FIFO wait queue is non-empty only while the cap is saturated, so a
queued operation is released only when a running one completes. -/
theorem executor_concurrency_cap (k : Nat) (s : ExecState)
    (hr : ExecReachable k s) :
    s.active ≤ k ∧ (s.queue ≠ [] → s.active = k) := by
  induction hr with
  | init => simp
  | @step s₀ s₁ _ hstep ih =>
      cases hstep with
      | submitRun op s h =>
          dsimp only
          exact ⟨by omega, fun hq => by have := ih.2 hq; omega⟩
      | submitQueue op s h =>
          dsimp only
          exact ⟨ih.1, fun _ => by have := ih.1; omega⟩
      | complete s h =>
          dsimp only
          exact processQueue_bound k s₀.queue (s₀.active - 1) (by have := ih.1; omega)

theorem executor_concurrency_cap_witness :
    (ExecState.mk 2 [7]).active ≤ 2 ∧
    ((ExecState.mk 2 [7]).queue ≠ [] → (ExecState.mk 2 [7]).active = 2) :=
  executor_concurrency_cap 2 ⟨2, [7]⟩
    (ExecReachable.step
      (ExecReachable.step
        (ExecReachable.step ExecReachable.init
          (ExecStep.submitRun 5 ⟨0, []⟩ (by decide)))
        (ExecStep.submitRun 6 ⟨1, []⟩ (by decide)))
      (ExecStep.submitQueue 7 ⟨2, []⟩ (by decide)))

theorem digitChar_mem_digitDash (m : Nat) (h : m < 10) :
    Nat.digitChar m ∈ digitDashChars := by
  interval_cases m <;> decide

theorem toDigitsCore_mem_digitDash (f : Nat) :
    ∀ (n : Nat) (l : List Char), (∀ c ∈ l, c ∈ digitDashChars) →
      ∀ c ∈ Nat.toDigitsCore 10 f n l, c ∈ digitDashChars := by
  induction f with
  | zero =>
      intro n l hl
      simpa [Nat.toDigitsCore] using hl
  | succ f ih =>
      intro n l hl c hc
      simp only [Nat.toDigitsCore] at hc
      have hcons : ∀ x ∈ Nat.digitChar (n % 10) :: l, x ∈ digitDashChars := by
        intro x hx
        rcases List.mem_cons.mp hx with h | h
        · subst h; exact digitChar_mem_digitDash (n % 10) (Nat.mod_lt _ (by omega))
        · exact hl x h
      by_cases h0 : n / 10 = 0
      · rw [if_pos h0] at hc
        exact hcons c hc
      · rw [if_neg h0] at hc
        exact ih (n / 10) (Nat.digitChar (n % 10) :: l) hcons c hc

theorem toString_int_mem_digitDash (n : Int) :
    ∀ c ∈ (toString n).data, c ∈ digitDashChars := by
  show ∀ c ∈ (Int.repr n).data, c ∈ digitDashChars
  cases n with
  | ofNat m =>
      intro c hc
      have : (Int.repr (Int.ofNat m)).data = Nat.toDigits 10 m := rfl
      rw [this] at hc
      exact toDigitsCore_mem_digitDash (m + 1) m [] (by simp) c hc
  | negSucc m =>
      intro c hc
      have : (Int.repr (Int.negSucc m)).data = '-' :: Nat.toDigits 10 (m + 1) := rfl
      rw [this] at hc
      rcases List.mem_cons.mp hc with h | h
      · subst h; decide
      · exact toDigitsCore_mem_digitDash (m + 2) (m + 1) [] (by simp) c h

theorem toLower_digitDash {c : Char} (h : c ∈ digitDashChars) : c.toLower = c := by
  fin_cases h <;> rfl

theorem headMatches_stop (p : List Char) (hne : p ≠ [])
    (hp : ∀ c ∈ p, c ∉ digitDashChars) (s : List Char)
    (hs : ∀ c ∈ s, c ∈ digitDashChars) : headMatches p s = false := by
  cases p with
  | nil => exact absurd rfl hne
  | cons pc pt =>
      cases s with
      | nil => rfl
      | cons c cs =>
          have h1 := hp pc (by simp)
          have h2 := hs c (by simp)
          have hne2 : (pc == c) = false := by
            cases hbe : pc == c
            · rfl
            · exact absurd (by rw [show pc = c from by simpa using hbe]; exact h2) h1
          simp [headMatches, hne2]

theorem headMatches_append_digits (s : List Char)
    (hs : ∀ c ∈ s, c ∈ digitDashChars) :
    ∀ (p L : List Char), (∀ c ∈ p, c ∉ digitDashChars) →
      headMatches p (L ++ s) = headMatches p L := by
  intro p
  induction p with
  | nil => intro L _; rfl
  | cons pc pt ih =>
      intro L hp
      cases L with
      | nil =>
          rw [List.nil_append,
              headMatches_stop (pc :: pt) (by simp) hp s hs]
          rfl
      | cons a L' =>
          simp only [List.cons_append, headMatches, List.append_eq]
          rw [ih L' (fun c hc => hp c (List.mem_cons_of_mem _ hc))]

theorem occursIn_all_digits (p : List Char) (hne : p ≠ [])
    (hp : ∀ c ∈ p, c ∉ digitDashChars) :
    ∀ (s : List Char), (∀ c ∈ s, c ∈ digitDashChars) → occursIn p s = false := by
  intro s
  induction s with
  | nil =>
      intro _
      simp [occursIn, List.isEmpty_iff, hne]
  | cons c cs ih =>
      intro hs
      simp only [occursIn, Bool.or_eq_false_iff]
      exact ⟨headMatches_stop p hne hp (c :: cs) hs,
             ih (fun x hx => hs x (List.mem_cons_of_mem _ hx))⟩

theorem occursIn_append_digits (p : List Char) (hne : p ≠ [])
    (hp : ∀ c ∈ p, c ∉ digitDashChars) (s : List Char)
    (hs : ∀ c ∈ s, c ∈ digitDashChars) :
    ∀ (L : List Char), occursIn p (L ++ s) = occursIn p L := by
  intro L
  induction L with
  | nil =>
      rw [List.nil_append, occursIn_all_digits p hne hp s hs]
      simp [occursIn, List.isEmpty_iff, hne]
  | cons a L' ih =>
      simp only [List.cons_append, occursIn, List.append_eq]
      rw [show (a :: (L' ++ s)) = (a :: L') ++ s from rfl,
          headMatches_append_digits s hs p (a :: L') hp, ih]

theorem isRetriable_of_no_nonretriable (msg : String)
    (h : ∀ p ∈ nonRetriablePatterns, occursIn p.data (lowerChars msg.data) = false) :
    isRetriable msg = true := by
  unfold isRetriable
  have hany : nonRetriablePatterns.any
      (fun p => occursIn p.data (lowerChars msg.data)) = false := by
    rw [List.any_eq_false]
    intro p hp
    simp [h p hp]
  simp only [hany, Bool.false_eq_true, if_false]
  cases retriablePatterns.any (fun p => occursIn p.data (lowerChars msg.data)) <;> simp

theorem occursIn_append_eq (p s L : List Char) (hne : p ≠ [])
    (hp : ∀ c ∈ p, c ∉ digitDashChars) (hs : ∀ c ∈ s, c ∈ digitDashChars) :
    occursIn p (L ++ s) = occursIn p L :=
  occursIn_append_digits p hne hp s hs L

theorem processExitMessage_data (name : String) (code : Option Int) :
    (processExitMessage name code).data =
      (name ++ " process exited with code ").data ++ (codeText code).data := by
  simp [processExitMessage, String.data_append]

/-- C4 (amended): when an upstream child process exits, handleProcessExit
rejects every pending request of the client with the "process exited" error
and clears the pending table and the initialized flag; but the retry
classifier treats such a message as RETRIABLE (it matches neither pattern
list and the fall-through default is retriable), so the retry wrapper may
spend further attempts on it. -/
theorem processExit_rejects_all_and_is_retriable (name : String)
    (hname : name ∈ serverNames) (code : Option Int) (st : ClientState) :
    (handleProcessExit name code st).1 =
      st.pendingRequests.map (fun id => (id, processExitMessage name code)) ∧
    (handleProcessExit name code st).2.pendingRequests = [] ∧
    (handleProcessExit name code st).2.initialized = false ∧
    isRetriable (processExitMessage name code) = true := by
  refine ⟨rfl, rfl, rfl, ?_⟩
  cases code with
  | none => fin_cases hname <;> decide
  | some n =>
      apply isRetriable_of_no_nonretriable
      intro p hp
      have hS : ∀ c ∈ List.map Char.toLower (codeText (some n)).data,
          c ∈ digitDashChars := by
        intro c hc
        rcases List.mem_map.mp hc with ⟨c0, hc0, rfl⟩
        have hm := toString_int_mem_digitDash n c0 hc0
        rw [toLower_digitDash hm]
        exact hm
      rw [processExitMessage_data]
      simp only [lowerChars, List.map_append]
      fin_cases hp <;>
        · rw [occursIn_append_eq]
          · fin_cases hname <;> decide
          · decide
          · decide
          · exact hS

theorem processExit_rejects_all_and_is_retriable_witness :
    ("serena" ∈ serverNames) ∧
    ((handleProcessExit "serena" (some 1) ⟨[4, 5], true⟩).1 =
      [(4, processExitMessage "serena" (some 1)),
       (5, processExitMessage "serena" (some 1))] ∧
     (handleProcessExit "serena" (some 1) ⟨[4, 5], true⟩).2.pendingRequests = [] ∧
     (handleProcessExit "serena" (some 1) ⟨[4, 5], true⟩).2.initialized = false ∧
     isRetriable (processExitMessage "serena" (some 1)) = true) :=
  ⟨by decide,
   processExit_rejects_all_and_is_retriable "serena" (by decide) (some 1) ⟨[4, 5], true⟩⟩

/-- C4 counterexample: the claim says the classifier returns false on a
"process exited" error so that the retry wrapper spends no further attempts;
in fact isRetriable returns true on such a message, and a client whose calls
keep failing with it is retried for all three default attempts. -/
theorem processExit_claimed_nonretriable_counterexample :
    isRetriable (processExitMessage "serena" (some 1)) = true ∧
    (executeWithRetry (α := Unit)
      (fun _ => .err (processExitMessage "serena" (some 1))) 3).2 = 3 := by
  constructor <;> decide

/-- C6 (amended): every dispatched BridgeResponse keeps data and error
mutually exclusive and marks error-carrying results unsuccessful; the
metadata block is present exactly on the cache-hit, success and
EXECUTION_ERROR outcomes (without a tokensEstimate in the error case), while
INVALID_OPERATION, MAPPING_ERROR and SERVER_UNAVAILABLE results carry no
metadata; a successful result always has data, no error and full metadata
(an upstream isError response yields success = false with data populated). -/
theorem executeOperation_envelope (category operation : String) (env : DispatchEnv) :
    ((executeOperation category operation env).1.data = none ∨
     (executeOperation category operation env).1.error = none) ∧
    ((executeOperation category operation env).1.success = true →
       (executeOperation category operation env).1.data ≠ none ∧
       (executeOperation category operation env).1.error = none ∧
       (executeOperation category operation env).1.metadata ≠ none) ∧
    (∀ e, (executeOperation category operation env).1.error = some e →
       (executeOperation category operation env).1.success = false ∧
       (e.code = "EXECUTION_ERROR" ↔
         (executeOperation category operation env).1.metadata ≠ none)) ∧
    (∀ e m, (executeOperation category operation env).1.error = some e →
       (executeOperation category operation env).1.metadata = some m →
       m.tokensEstimate = none) := by
  unfold executeOperation
  rcases env with ⟨v, mp, ca, cc, es, er, ee, est, d, now⟩
  cases v
  · simp
  · cases mp with
    | none => simp
    | some mapping =>
        cases ca
        · simp
        · dsimp only
          cases hcc : (if mapping.cacheable = true then cc else none) with
          | some cachedResult => simp [formatBridgeResponse]
          | none => cases es <;> cases er <;> simp [formatBridgeResponse]

theorem executeOperation_envelope_witness :
    ((executeOperation "code_operations" "findSymbol" envW).1.data = none ∨
     (executeOperation "code_operations" "findSymbol" envW).1.error = none) ∧
    ((executeOperation "code_operations" "findSymbol" envW).1.success = true →
       (executeOperation "code_operations" "findSymbol" envW).1.data ≠ none ∧
       (executeOperation "code_operations" "findSymbol" envW).1.error = none ∧
       (executeOperation "code_operations" "findSymbol" envW).1.metadata ≠ none) ∧
    (∀ e, (executeOperation "code_operations" "findSymbol" envW).1.error = some e →
       (executeOperation "code_operations" "findSymbol" envW).1.success = false ∧
       (e.code = "EXECUTION_ERROR" ↔
         (executeOperation "code_operations" "findSymbol" envW).1.metadata ≠ none)) ∧
    (∀ e m, (executeOperation "code_operations" "findSymbol" envW).1.error = some e →
       (executeOperation "code_operations" "findSymbol" envW).1.metadata = some m →
       m.tokensEstimate = none) :=
  executeOperation_envelope "code_operations" "findSymbol" envW

/-- C6 counterexample: the INVALID_OPERATION outcome carries no metadata
block at all (refuting "meta is always present"), and an upstream response
with isError set produces success = false with data populated and no error
(refuting "exactly one of body or error according to success"). -/
theorem executeOperation_envelope_counterexample :
    (executeOperation "code_operations" "nope" envInvalid).1.error =
      some ⟨"Invalid operation: nope in category code_operations",
            "INVALID_OPERATION", none⟩ ∧
    (executeOperation "code_operations" "nope" envInvalid).1.metadata = none ∧
    ((executeOperation "code_operations" "findSymbol" envIsError).1.success = false ∧
     (executeOperation "code_operations" "findSymbol" envIsError).1.data ≠ none ∧
     (executeOperation "code_operations" "findSymbol" envIsError).1.error = none) := by
  refine ⟨by decide, by decide, by decide, by decide, by decide⟩

/-- C7 (amended): a dispatch appends exactly one metrics record on the
cache-hit, upstream-success and upstream-failure outcomes, and none on the
INVALID_OPERATION, MAPPING_ERROR and SERVER_UNAVAILABLE outcomes. -/
theorem executeOperation_metrics_count (category operation : String) (env : DispatchEnv) :
    (executeOperation category operation env).2.length =
      if !env.validOp || env.mapping.isNone || !env.clientAvailable
      then 0 else 1 := by
  unfold executeOperation
  rcases env with ⟨v, mp, ca, cc, es, er, ee, est, d, now⟩
  cases v
  · simp
  · cases mp with
    | none => simp
    | some mapping =>
        cases ca
        · simp
        · dsimp only
          cases hcc : (if mapping.cacheable = true then cc else none) with
          | some cachedResult => simp
          | none => cases es <;> cases er <;> simp

/-- C7 counterexample: the INVALID_OPERATION outcome appends no metrics
record, not one. -/
theorem executeOperation_metrics_counterexample :
    (executeOperation "code_operations" "nope" envInvalid).1.error ≠ none ∧
    (executeOperation "code_operations" "nope" envInvalid).2.length = 0 := by
  constructor <;> decide

theorem emitRun_nil (thr : Nat) (repl : List Char) (hthr : 1 ≤ thr) :
    emitRun thr repl [] = [] := by
  unfold emitRun
  rw [if_neg (by simp; omega)]

theorem collapseAux_nomatch (pred : Char → Bool) (thr : Nat) (repl : List Char)
    (hthr : 1 ≤ thr) :
    ∀ l, (∀ c ∈ l, pred c = false) → collapseAux pred thr repl [] l = l := by
  intro l
  induction l with
  | nil =>
      intro _
      show emitRun thr repl [] = []
      exact emitRun_nil thr repl hthr
  | cons c cs ih =>
      intro h
      have hc : pred c = false := h c (by simp)
      show collapseAux pred thr repl [] (c :: cs) = c :: cs
      unfold collapseAux
      rw [hc]
      simp only [Bool.false_eq_true, if_false]
      rw [emitRun_nil thr repl hthr, ih (fun x hx => h x (List.mem_cons_of_mem _ hx))]
      rfl

theorem dropWhile_nomatch (p : Char → Bool) (m : List Char)
    (hm : ∀ c ∈ m, p c = false) : m.dropWhile p = m := by
  cases m with
  | nil => rfl
  | cons a t => simp [List.dropWhile_cons, hm a (by simp)]

theorem trimChars_nows (l : List Char) (h : ∀ c ∈ l, isJsWhitespace c = false) :
    trimChars l = l := by
  unfold trimChars
  rw [dropWhile_nomatch _ l h,
      dropWhile_nomatch _ l.reverse (fun c hc => h c (List.mem_reverse.mp hc)),
      List.reverse_reverse]

theorem compressText_nows (t : String) (h : ∀ c ∈ t.data, isJsWhitespace c = false) :
    compressText t = t := by
  have hnl : ∀ c ∈ t.data, (decide (c = '\n')) = false := by
    intro c hc
    by_cases hcn : c = '\n'
    · subst hcn
      exact absurd (h _ hc) (by decide)
    · simp [hcn]
  unfold compressText
  rw [collapseAux_nomatch _ 3 _ (by omega) t.data hnl,
      collapseAux_nomatch _ 2 _ (by omega) t.data h,
      trimChars_nows t.data h]

theorem bigText_chars : ∀ c ∈ bigText.data, c = 'a' := by
  intro c hc
  have hd : bigText.data = List.replicate 50001 'a' := rfl
  rw [hd] at hc
  exact List.eq_of_mem_replicate hc

theorem bigText_ne_empty : bigText ≠ "" := by
  intro hcon
  have : bigText.data.length = 0 := by rw [hcon]; rfl
  have hd : bigText.data = List.replicate 50001 'a' := rfl
  rw [hd, List.length_replicate] at this
  omega

theorem compressText_bigText : compressText bigText = bigText :=
  compressText_nows _ (fun c hc => by rw [bigText_chars c hc]; decide)

theorem compressResponse_big : compressResponse bigResult = bigResult := by
  unfold compressResponse bigResult
  simp only [List.map_cons, List.map_nil]
  rw [if_pos (⟨trivial, bigText_ne_empty⟩ : True ∧ bigText ≠ ""),
      compressText_bigText]

theorem flatten_replicate_single (c : Char) :
    ∀ n, (List.replicate n [c]).flatten = List.replicate n c := by
  intro n
  induction n with
  | zero => rfl
  | succ n ih => simp [List.replicate_succ, ih]

theorem quote_bigText_data :
    (quoteString bigText).data = '"' :: (List.replicate 50001 'a' ++ ['"']) := by
  unfold quoteString
  have hd : bigText.data = List.replicate 50001 'a' := rfl
  rw [hd, List.map_replicate, show quoteChar 'a' = ['a'] from rfl,
      flatten_replicate_single]
  rfl

theorem quote_bigText_length : (quoteString bigText).length = 50003 := by
  show (quoteString bigText).data.length = 50003
  rw [quote_bigText_data, List.length_cons, List.length_append, List.length_replicate,
      show (['\"'] : List Char).length = 1 from rfl]

theorem serialize_big_length : 50000 < (serializeCallToolResult bigResult).length := by
  have hitem : serializeItem ⟨"text", some bigText⟩
      = "\x7b" ++ quoteString "type" ++ ":" ++ quoteString "text" ++
        ("," ++ quoteString "text" ++ ":" ++ quoteString bigText) ++ "\x7d" := rfl
  have hser : serializeCallToolResult bigResult
      = "\x7b" ++ quoteString "content" ++ ":[" ++
        serializeItem ⟨"text", some bigText⟩ ++ "]" ++ "" ++ "\x7d" := rfl
  rw [hser, hitem]
  simp only [String.length_append]
  rw [quote_bigText_length,
      show (quoteString "type").length = 6 from rfl,
      show (quoteString "text").length = 6 from rfl,
      show (quoteString "content").length = 9 from rfl]
  decide

theorem executeOperation_success_shape (category operation : String) (env : DispatchEnv)
    (mapping : OperationMapping) (hv : env.validOp = true) (hm : env.mapping = some mapping)
    (hc : env.clientAvailable = true)
    (hcache : (if mapping.cacheable then env.cached else none) = none)
    (r : CallToolResult) (hs : env.execSuccess = true) (hr : env.execResult = some r) :
    (executeOperation category operation env).1 =
      formatBridgeResponse (compressResponse r) mapping.server operation
        env.durationMs false := by
  unfold executeOperation
  rw [hv, hm, hc]
  dsimp only
  rw [hcache, hs, hr]
  rfl

/-- C8 (amended): on the success path the dispatcher compacts the upstream
response (whitespace collapse) and returns its content as-is; no size
truncation is applied anywhere in the dispatch, whatever the serialized
length (truncateIfNeeded exists in ResponseFormatter but is never invoked). -/
theorem executeOperation_compresses_without_truncation (category operation : String)
    (env : DispatchEnv) (mapping : OperationMapping)
    (hv : env.validOp = true) (hm : env.mapping = some mapping)
    (hc : env.clientAvailable = true)
    (hcache : (if mapping.cacheable then env.cached else none) = none)
    (r : CallToolResult) (hs : env.execSuccess = true) (hr : env.execResult = some r) :
    (executeOperation category operation env).1.data =
      some (compressResponse r).content := by
  rw [executeOperation_success_shape category operation env mapping hv hm hc hcache r hs hr]
  rfl

theorem executeOperation_compresses_without_truncation_witness :
    (executeOperation "code_operations" "findSymbol" envW).1.data =
      some (compressResponse ⟨[⟨"text", some "ok"⟩], none⟩).content :=
  executeOperation_compresses_without_truncation "code_operations" "findSymbol" envW
    ⟨"serena", "find_symbol", true⟩ rfl rfl rfl rfl ⟨[⟨"text", some "ok"⟩], none⟩ rfl rfl

/-- C8 counterexample: a successful upstream response whose compacted body
serializes to more than 50,000 bytes is returned by the dispatcher with its
full content, not replaced by a "[Response truncated ...]" text item. -/
theorem dispatcher_returns_oversized_untruncated :
    (executeOperation "code_operations" "findSymbol" envBig).1.data
      = some [ContentItem.mk "text" (some bigText)] ∧
    50000 < (serializeCallToolResult (compressResponse bigResult)).length ∧
    headMatches "[Response truncated".data bigText.data = false := by
  refine ⟨?_, ?_, ?_⟩
  · rw [executeOperation_success_shape "code_operations" "findSymbol" envBig
        ⟨"serena", "find_symbol", false⟩ rfl rfl rfl rfl bigResult rfl rfl,
      compressResponse_big]
    rfl
  · rw [compressResponse_big]
    exact serialize_big_length
  · rfl

theorem cacheInsert_length_le (m : CacheMap) (k : String) (e : CacheEntry) :
    (cacheInsert m k e).length ≤ m.length + 1 := by
  induction m with
  | nil => simp [cacheInsert]
  | cons kv rest ih =>
      obtain ⟨k', e'⟩ := kv
      by_cases h : k' = k
      · simp [cacheInsert, h]
      · simp only [cacheInsert, h, if_false, List.length_cons]
        omega

theorem cacheInsert_length_of_lookup (m : CacheMap) (k : String) (e₀ : CacheEntry)
    (hl : cacheLookup m k = some e₀) (e : CacheEntry) :
    (cacheInsert m k e).length = m.length := by
  induction m with
  | nil => simp [cacheLookup] at hl
  | cons kv rest ih =>
      obtain ⟨k', e'⟩ := kv
      by_cases h : k' = k
      · simp [cacheInsert, h]
      · simp only [cacheLookup, h, if_false] at hl
        simp only [cacheInsert, h, if_false, List.length_cons, ih hl]

theorem cacheDelete_length_le (m : CacheMap) (k : String) :
    (cacheDelete m k).length ≤ m.length := by
  induction m with
  | nil => simp [cacheDelete]
  | cons kv rest ih =>
      obtain ⟨k', e'⟩ := kv
      by_cases h : k' = k
      · simp [cacheDelete, h]
      · simp only [cacheDelete, h, if_false, List.length_cons]
        omega

theorem cacheDelete_length_of_mem (m : CacheMap) (k : String)
    (h : ∃ e, (k, e) ∈ m) : (cacheDelete m k).length + 1 = m.length := by
  induction m with
  | nil => obtain ⟨e, he⟩ := h; simp at he
  | cons kv rest ih =>
      obtain ⟨k', e'⟩ := kv
      by_cases hk : k' = k
      · simp [cacheDelete, hk]
      · obtain ⟨e, he⟩ := h
        rcases List.mem_cons.mp he with heq | hmem
        · exact absurd (congrArg Prod.fst heq).symm hk
        · simp only [cacheDelete, hk, if_false, List.length_cons,
            ih ⟨e, hmem⟩]

theorem evictFold_some_mem (m : CacheMap) :
    ∀ (acc : Option (String × Nat × Nat)) (r : String × Nat × Nat),
      m.foldl
        (fun best kv =>
          match best with
          | none => some (kv.1, kv.2.timestamp, kv.2.hits)
          | some (bk, bt, bh) =>
              if scoreLt kv.2.timestamp kv.2.hits bt bh then
                some (kv.1, kv.2.timestamp, kv.2.hits)
              else some (bk, bt, bh))
        acc = some r →
      (∃ kv ∈ m, r.1 = kv.1) ∨ acc = some r := by
  induction m with
  | nil => intro acc r h; exact Or.inr h
  | cons kv rest ih =>
      intro acc r h
      simp only [List.foldl_cons] at h
      rcases ih _ r h with hrest | hacc
      · obtain ⟨kv', hkv', hr⟩ := hrest
        exact Or.inl ⟨kv', List.mem_cons_of_mem _ hkv', hr⟩
      · cases acc with
        | none =>
            simp only at hacc
            exact Or.inl ⟨kv, List.mem_cons_self _ _, by
              have hinj := Option.some.inj hacc
              rw [← hinj]⟩
        | some b =>
            obtain ⟨bk, bt, bh⟩ := b
            by_cases hs : scoreLt kv.2.timestamp kv.2.hits bt bh
            · simp only [hs, if_true] at hacc
              exact Or.inl ⟨kv, List.mem_cons_self _ _, by
                have hinj := Option.some.inj hacc
                rw [← hinj]⟩
            · simp only [hs, if_false] at hacc
              exact Or.inr hacc

theorem evictFold_some_of_ne_nil (m : CacheMap) (hne : m ≠ []) :
    ∃ r, evictFold m = some r := by
  have hstep : ∀ (rest : CacheMap) (acc : String × Nat × Nat),
      ∃ r, rest.foldl
        (fun best kv =>
          match best with
          | none => some (kv.1, kv.2.timestamp, kv.2.hits)
          | some (bk, bt, bh) =>
              if scoreLt kv.2.timestamp kv.2.hits bt bh then
                some (kv.1, kv.2.timestamp, kv.2.hits)
              else some (bk, bt, bh))
        (some acc) = some r := by
    intro rest
    induction rest with
    | nil => intro acc; exact ⟨acc, rfl⟩
    | cons kv t ih =>
        intro acc
        obtain ⟨bk, bt, bh⟩ := acc
        simp only [List.foldl_cons]
        by_cases hs : scoreLt kv.2.timestamp kv.2.hits bt bh
        · simpa [hs] using ih (kv.1, kv.2.timestamp, kv.2.hits)
        · simpa [hs] using ih (bk, bt, bh)
  cases m with
  | nil => exact absurd rfl hne
  | cons kv rest =>
      unfold evictFold
      simp only [List.foldl_cons]
      exact hstep rest (kv.1, kv.2.timestamp, kv.2.hits)

theorem mem_of_key_mem (m : CacheMap) (k : String)
    (h : ∃ kv ∈ m, k = kv.1) : ∃ e, (k, e) ∈ m := by
  obtain ⟨⟨k', e⟩, hmem, hk⟩ := h
  exact ⟨e, by rw [hk]; exact hmem⟩

theorem evictOldest_length (m : CacheMap) (hne : m ≠ []) :
    (evictOldest m).length + 1 = m.length := by
  obtain ⟨r, hr⟩ := evictFold_some_of_ne_nil m hne
  have hmem := evictFold_some_mem m none r hr
  rcases hmem with hmem | habs
  · unfold evictOldest
    rw [hr]
    exact cacheDelete_length_of_mem m r.1 (mem_of_key_mem m r.1 hmem)
  · exact absurd habs (by simp)

theorem applyCacheOp_length (cfg : CacheConfig) (h1 : 1 ≤ cfg.maxSize)
    (m : CacheMap) (hm : m.length ≤ cfg.maxSize) (op : CacheOp) :
    (applyCacheOp cfg m op).length ≤ cfg.maxSize := by
  cases op with
  | get s t a now =>
      show (cacheGet cfg m s t a now).2.length ≤ cfg.maxSize
      unfold cacheGet
      cases he : cfg.enabled
      · simpa using hm
      · simp only [Bool.not_true, Bool.false_eq_true, if_false]
        cases hl : cacheLookup m (generateKey s t a) with
        | none => simpa using hm
        | some entry =>
            by_cases hexp : cfg.ttlSeconds * 1000 < now - entry.timestamp
            · simp only [hexp, if_true]
              exact le_trans (cacheDelete_length_le m _) hm
            · simp only [hexp, if_false]
              rw [cacheInsert_length_of_lookup m _ entry hl]
              exact hm
  | set s t a v now =>
      show (cacheSet cfg m s t a v now).length ≤ cfg.maxSize
      unfold cacheSet
      cases he : cfg.enabled
      · simpa using hm
      · simp only [Bool.not_true, Bool.false_eq_true, if_false]
        by_cases hfull : cfg.maxSize ≤ m.length
        · have hlen : m.length = cfg.maxSize := le_antisymm hm hfull
          have hne : m ≠ [] := by
            intro hnil
            rw [hnil] at hlen
            simp at hlen
            omega
          have hev := evictOldest_length m hne
          have := cacheInsert_length_le (evictOldest m) (generateKey s t a)
            { value := v, timestamp := now, hits := 0 }
          simp only [hfull, if_true]
          omega
        · have := cacheInsert_length_le m (generateKey s t a)
            { value := v, timestamp := now, hits := 0 }
          simp only [hfull, if_false]
          omega
  | invalidate p =>
      show (cacheInvalidate m p).2.length ≤ cfg.maxSize
      cases p with
      | none => simp [cacheInvalidate]
      | some pat =>
          obtain ⟨ps, pt⟩ := pat
          exact le_trans (by simpa [cacheInvalidate] using List.length_filter_le _ m) hm
  | sweep now =>
      show (cacheSweep cfg m now).length ≤ cfg.maxSize
      exact le_trans (by simpa [cacheSweep] using List.length_filter_le _ m) hm

/-- C9 (amended): for every cache configuration with maxSize at least 1 and
every sequence of get, set, invalidate and sweep operations, the cache never
holds more than maxSize entries (the witness instantiates the claim's
maxSize = 3 scenario: after 4 sets with distinct keys the size is exactly 3).
With maxSize = 0 the bound fails, see the counterexample. -/
theorem cache_never_exceeds_maxSize (cfg : CacheConfig) (h1 : 1 ≤ cfg.maxSize)
    (ops : List CacheOp) : (runCacheOps cfg ops).length ≤ cfg.maxSize := by
  suffices h : ∀ (m : CacheMap), m.length ≤ cfg.maxSize →
      (ops.foldl (applyCacheOp cfg) m).length ≤ cfg.maxSize by
    exact h [] (by simp)
  induction ops with
  | nil => intro m hm; exact hm
  | cons op rest ih =>
      intro m hm
      exact ih _ (applyCacheOp_length cfg h1 m hm op)

theorem cache_never_exceeds_maxSize_witness :
    1 ≤ 3 ∧ (runCacheOps ⟨true, 60, 3⟩ fourSets).length ≤ 3 ∧
    (runCacheOps ⟨true, 60, 3⟩ fourSets).length = 3 :=
  ⟨by decide, cache_never_exceeds_maxSize ⟨true, 60, 3⟩ (by decide) fourSets, by decide⟩

/-- C9 counterexample: with maxSize = 0 (a cache configuration the claim
quantifies over), a single set leaves one entry in the cache, exceeding
maxSize — evictOldest finds nothing to remove in an empty cache and the
insert then goes through. -/
theorem cache_maxSize_zero_counterexample :
    (CacheConfig.mk true 300 0).maxSize <
      (runCacheOps (CacheConfig.mk true 300 0)
        [CacheOp.set "serena" "tool1" [] ⟨[], none⟩ 0]).length := by decide

theorem wf_arr_members {items : List Json} (h : JsonWf (.arr items)) :
    ∀ v ∈ items, JsonWf v := by
  cases h with
  | arr h => exact h

theorem wf_obj_nodup {fields : List (String × Json)} (h : JsonWf (.obj fields)) :
    (objectKeys fields).Nodup := by
  cases h with
  | obj hnd _ => exact hnd

theorem wf_obj_members {fields : List (String × Json)} (h : JsonWf (.obj fields)) :
    ∀ kv ∈ fields, JsonWf kv.2 := by
  cases h with
  | obj _ hm => exact hm

theorem jeqFields_keys : ∀ {f₁ f₂ : List (String × Json)}, JeqFields f₁ f₂ →
    f₁.map Prod.fst = f₂.map Prod.fst
  | _, _, .nil => rfl
  | (k, v) :: r₁, (_, w) :: r₂, .cons _ hvw hrest => by
      simp [jeqFields_keys hrest]

theorem serializeFields_eq_map (props : List String) (f : List (String × Json)) :
    serializeFields props f = f.map (fun kv => (kv.1, stringifyFiltered props kv.2)) := by
  induction f with
  | nil => rfl
  | cons kv rest ih =>
      obtain ⟨k, v⟩ := kv
      simp [serializeFields, ih]

theorem serializeFields_keys (props : List String) (f : List (String × Json)) :
    (serializeFields props f).map Prod.fst = f.map Prod.fst := by
  induction f with
  | nil => rfl
  | cons kv rest ih =>
      obtain ⟨k, v⟩ := kv
      simp [serializeFields, ih]

theorem lookupStr_perm (t₁ t₂ : List (String × String)) (hperm : t₁.Perm t₂)
    (hnd : (t₁.map Prod.fst).Nodup) (p : String) :
    lookupStr t₁ p = lookupStr t₂ p := by
  induction hperm with
  | nil => rfl
  | cons x h ih =>
      obtain ⟨k, v⟩ := x
      by_cases hk : k = p
      · simp [lookupStr, hk]
      · simp only [lookupStr, hk, if_false]
        simp only [List.map_cons, List.nodup_cons] at hnd
        exact ih hnd.2
  | swap x y l =>
      obtain ⟨k₁, v₁⟩ := x
      obtain ⟨k₂, v₂⟩ := y
      simp only [List.map_cons, List.nodup_cons, List.mem_cons] at hnd
      have hne : k₂ ≠ k₁ := fun hcon => hnd.1 (Or.inl hcon)
      by_cases h₂ : k₂ = p
      · have h₁ : k₁ ≠ p := fun hcon => hne (h₂.trans hcon.symm)
        simp [lookupStr, h₁, h₂]
      · by_cases h₁ : k₁ = p
        · simp [lookupStr, h₁, h₂]
        · simp [lookupStr, h₁, h₂]
  | trans h12 h23 ih12 ih23 =>
      rw [ih12 hnd]
      exact ih23 (((h12.map Prod.fst).nodup_iff).mp hnd)

theorem emitProps_congr (t₁ t₂ : List (String × String))
    (h : ∀ p, lookupStr t₁ p = lookupStr t₂ p) :
    ∀ props, emitProps t₁ props = emitProps t₂ props := by
  intro props
  induction props with
  | nil => rfl
  | cons p ps ih => simp only [emitProps, h p, ih]

mutual

theorem stringifyJeq (props : List String) : ∀ {v w : Json}, Jeq v w →
    JsonWf v → JsonWf w → stringifyFiltered props v = stringifyFiltered props w
  | _, _, .null, _, _ => rfl
  | _, _, .bool b, _, _ => rfl
  | _, _, .num n, _, _ => rfl
  | _, _, .str s, _, _ => rfl
  | _, _, .arr hl, hv, hw => by
      have h := stringifyJeqList props hl (wf_arr_members hv) (wf_arr_members hw)
      show "[" ++ joinComma (stringifyItems props _) ++ "]" = _
      rw [h]
      rfl
  | _, _, @Jeq.obj f₁ f₂ f₂' hf hperm, hv, hw => by
      have hm₁ := wf_obj_members hv
      have hm₂ := wf_obj_members hw
      have hnd₂ := wf_obj_nodup hw
      have hm₂' : ∀ kv ∈ f₂', JsonWf kv.2 := fun kv hkv => hm₂ kv (hperm.mem_iff.mp hkv)
      have h1 : serializeFields props f₁ = serializeFields props f₂' :=
        stringifyJeqFields props hf hm₁ hm₂'
      have hpermTab : (serializeFields props f₂').Perm (serializeFields props f₂) := by
        rw [serializeFields_eq_map, serializeFields_eq_map]
        exact hperm.map _
      have hndTab : ((serializeFields props f₂').map Prod.fst).Nodup := by
        rw [serializeFields_keys]
        exact ((hperm.map Prod.fst).nodup_iff).mpr hnd₂
      have hlook : ∀ p, lookupStr (serializeFields props f₂') p =
          lookupStr (serializeFields props f₂) p :=
        fun p => lookupStr_perm _ _ hpermTab hndTab p
      show "\x7b" ++ joinComma (emitProps (serializeFields props f₁) props) ++ "\x7d" = _
      rw [h1, emitProps_congr _ _ hlook props]
      rfl

theorem stringifyJeqList (props : List String) : ∀ {l₁ l₂ : List Json}, JeqList l₁ l₂ →
    (∀ v ∈ l₁, JsonWf v) → (∀ v ∈ l₂, JsonWf v) →
    stringifyItems props l₁ = stringifyItems props l₂
  | _, _, .nil, _, _ => rfl
  | v :: l₁', w :: l₂', .cons hvw hrest, h₁, h₂ => by
      simp only [stringifyItems]
      rw [stringifyJeq props hvw (h₁ v (by simp)) (h₂ w (by simp)),
          stringifyJeqList props hrest (fun x hx => h₁ x (List.mem_cons_of_mem _ hx))
            (fun x hx => h₂ x (List.mem_cons_of_mem _ hx))]

theorem stringifyJeqFields (props : List String) :
    ∀ {f₁ f₂ : List (String × Json)}, JeqFields f₁ f₂ →
    (∀ kv ∈ f₁, JsonWf kv.2) → (∀ kv ∈ f₂, JsonWf kv.2) →
    serializeFields props f₁ = serializeFields props f₂
  | _, _, .nil, _, _ => rfl
  | (k, v) :: r₁, (_, w) :: r₂, .cons _ hvw hrest, h₁, h₂ => by
      simp only [serializeFields]
      rw [stringifyJeq props hvw (h₁ (k, v) (by simp)) (h₂ (k, w) (by simp)),
          stringifyJeqFields props hrest (fun x hx => h₁ x (List.mem_cons_of_mem _ hx))
            (fun x hx => h₂ x (List.mem_cons_of_mem _ hx))]

end

theorem sortedKeys_perm_eq (l₁ l₂ : List String) (h : l₁.Perm l₂) :
    sortedKeys l₁ = sortedKeys l₂ := by
  show List.insertionSort (fun a b => a ≤ b) l₁ = List.insertionSort (fun a b => a ≤ b) l₂
  exact List.eq_of_perm_of_sorted
    ((List.perm_insertionSort _ l₁).trans (h.trans (List.perm_insertionSort _ l₂).symm))
    (List.sorted_insertionSort _ l₁)
    (List.sorted_insertionSort _ l₂)

/-- C5 (amended): the cache key is server + ":" + tool + ":" +
JSON.stringify(args, Object.keys(args).sort()) — the sorted top-level keys
act as a property filter at every depth, not as the full canonical JSON.
Two args objects that are semantically equal up to key order at any nesting
depth still produce the same key; but semantically different args may
collide when nested keys fall outside the top-level key set (see the
counterexample). -/
theorem generateKey_invariant_under_key_order (server tool : String)
    (args₁ args₂ : List (String × Json))
    (h : Jeq (.obj args₁) (.obj args₂))
    (h₁ : JsonWf (.obj args₁)) (h₂ : JsonWf (.obj args₂)) :
    generateKey server tool args₁ = generateKey server tool args₂ := by
  cases h with
  | @obj _ _ f₂' hf hperm =>
      have hkeys : (objectKeys args₁).Perm (objectKeys args₂) := by
        have hk1 : objectKeys args₁ = objectKeys f₂' := jeqFields_keys hf
        rw [hk1]
        exact hperm.map Prod.fst
      have hsk : sortedKeys (objectKeys args₁) = sortedKeys (objectKeys args₂) :=
        sortedKeys_perm_eq _ _ hkeys
      unfold generateKey
      rw [hsk, stringifyJeq (sortedKeys (objectKeys args₂)) (Jeq.obj hf hperm) h₁ h₂]

theorem generateKey_invariant_under_key_order_witness :
    generateKey "serena" "find_symbol" argsBA = generateKey "serena" "find_symbol" argsAB :=
  generateKey_invariant_under_key_order "serena" "find_symbol" argsBA argsAB
    (Jeq.obj
      (JeqFields.cons "b" (Jeq.num 2) (JeqFields.cons "a" (Jeq.num 1) JeqFields.nil))
      (List.Perm.swap ("a", Json.num 1) ("b", Json.num 2) []))
    (JsonWf.obj (by decide) (by
      intro kv hkv
      rcases List.mem_cons.mp hkv with h | h
      · rw [h]; exact JsonWf.num 2
      · rw [List.mem_singleton.mp h]; exact JsonWf.num 1))
    (JsonWf.obj (by decide) (by
      intro kv hkv
      rcases List.mem_cons.mp hkv with h | h
      · rw [h]; exact JsonWf.num 1
      · rw [List.mem_singleton.mp h]; exact JsonWf.num 2))

/-- C5 counterexample: two semantically different args objects (their nested
"x" values differ, so even the spec's canonical JSON separates them) produce
the same cache key, because the replacer array
`Object.keys(args).sort() = ["a"]` filters the nested key "x" out of the
serialization; the produced key also differs from the spec's canonical form. -/
theorem generateKey_collision_counterexample :
    generateKey "serena" "find_symbol" ex1 = generateKey "serena" "find_symbol" ex2 ∧
    canonicalJson (Json.obj ex1) ≠ canonicalJson (Json.obj ex2) ∧
    generateKey "serena" "find_symbol" ex1 ≠
      "serena" ++ ":" ++ "find_symbol" ++ ":" ++ canonicalJson (Json.obj ex1) := by
  refine ⟨by decide, by decide, by decide⟩
